import Mathlib

/-
Verification development for the `svc` snapshot-based versioning CLI.

The JavaScript source is shallowly embedded: the sqlite tables become lists
of row structures, the working directory becomes an explicit `Disk` value,
and every fallible database step is threaded through an explicit failure
oracle so that all-or-nothing properties of the callback-chained operations
can be examined.
-/

set_option maxRecDepth 4000

namespace SVC

/-! ## Ignore Engine

The tracker tests each relative path against every loaded rule via
`new RegExp('^' + pattern.replace(/\*/g, '.*') + '$').test(entryPath)`
(snapshot.js line 88).  For patterns whose characters other than `*` and `.`
carry no regular-expression meaning, that anchored regex is exactly: `*`
matches any (possibly empty) character sequence, `.` matches any single
character, every other character matches itself.  `globDotMatch` implements
that anchored semantics directly on the original pattern. -/

def globDotMatch : List Char → List Char → Bool
  | [], s => s.isEmpty
  | p :: ps, s =>
    if p == '*' then s.tails.any (fun t => globDotMatch ps t)
    else
      match s with
      | [] => false
      | c :: cs => (p == '.' || p == c) && globDotMatch ps cs

/-- Path `p` is excluded when some loaded rule matches it
(`ignorePatterns.some(...)`, snapshot.js line 88). -/
def matchesAnyIgnore (rules : List String) (p : String) : Bool :=
  rules.any (fun r => globDotMatch r.toList p.toList)

/-! ## Persistent store rows (database/init.js schema) -/

structure FileRow where
  id : Nat
  project_id : Nat
  path : String
  hash : String
  modified_at : Nat
deriving DecidableEq, Repr

structure SnapshotRow where
  id : Nat
  project_id : Nat
  description : String
deriving DecidableEq, Repr

structure SnapshotFileRow where
  id : Nat
  snapshot_id : Nat
  file_id : Nat
  content : String
deriving DecidableEq, Repr

structure DB where
  files : List FileRow
  snapshots : List SnapshotRow
  snapshot_files : List SnapshotFileRow
deriving DecidableEq, Repr

def nextFileId (db : List FileRow) : Nat :=
  db.foldl (fun m r => max m r.id) 0 + 1

/-- Upsert of one tracked file (snapshot.js lines 95-104): `SELECT * FROM
files WHERE path = ?`; when a row exists, `UPDATE files SET hash, modified_at
WHERE path = ?`, otherwise `INSERT INTO files (path, hash, project_id,
modified_at)`.  The lookup and the update key on the path alone, exactly as
in the source. -/
def upsertFile (projId now : Nat) (p hv : String) (db : List FileRow) : List FileRow :=
  if db.any (fun r => r.path == p) then
    db.map (fun r => if r.path == p then { r with hash := hv, modified_at := now } else r)
  else
    db ++ [{ id := nextFileId db, project_id := projId, path := p, hash := hv, modified_at := now }]

/-! ## File Tracker (snapshot.js `trackFiles` / `traverseDirectory`)

The directory tree is a rose tree of named entries.  `hashF` abstracts
`calculateFileHash` (utils/hash.js): the SHA-256 hex digest of the file's
on-disk bytes, here a function of the file's content. -/

mutual

inductive FSEntry where
  | file (name : String) (content : String) : FSEntry
  | dir (name : String) (children : FSList) : FSEntry

inductive FSList where
  | nil : FSList
  | cons (e : FSEntry) (es : FSList) : FSList

end

mutual

/-- One entry of `traverseDirectory` (snapshot.js lines 84-108): compute the
relative path, skip the entry whenever an ignore rule matches it (before
even looking at its kind), upsert a file, recurse into a directory. -/
def traverseEntry (hashF : String → String) (rules : List String) (projId now : Nat)
    (pre : String) (db : List FileRow) : FSEntry → List FileRow
  | .file name content =>
    let entryPath := pre ++ name
    if matchesAnyIgnore rules entryPath then db
    else upsertFile projId now entryPath (hashF content) db
  | .dir name children =>
    let entryPath := pre ++ name
    if matchesAnyIgnore rules entryPath then db
    else traverseChildren hashF rules projId now (entryPath ++ "/") db children

/-- Sequential `entries.forEach` over the children of a directory. -/
def traverseChildren (hashF : String → String) (rules : List String) (projId now : Nat)
    (pre : String) (db : List FileRow) : FSList → List FileRow
  | .nil => db
  | .cons e es =>
    traverseChildren hashF rules projId now pre (traverseEntry hashF rules projId now pre db e) es

end

mutual

/-- The relative paths and contents of the files the traversal visits and
does not skip: a file is collected when neither it nor any ancestor
directory matches an ignore rule. -/
def collectEntry (rules : List String) (pre : String) : FSEntry → List (String × String)
  | .file name content =>
    let entryPath := pre ++ name
    if matchesAnyIgnore rules entryPath then [] else [(entryPath, content)]
  | .dir name children =>
    let entryPath := pre ++ name
    if matchesAnyIgnore rules entryPath then []
    else collectChildren rules (entryPath ++ "/") children

def collectChildren (rules : List String) (pre : String) : FSList → List (String × String)
  | .nil => []
  | .cons e es => collectEntry rules pre e ++ collectChildren rules pre es

end

/-! ## Disk model

The working directory, as the Snapshot Engine touches it: an association
list of file paths to text contents, plus the set of directories that
exist.  `fs.writeFileSync` replaces or creates one file;
`fs.mkdirSync(path.dirname(p), { recursive: true })` ensures every ancestor
directory of `p` exists. -/

structure Disk where
  files : List (String × String)
  dirs : List String
deriving DecidableEq, Repr

def readDiskFile (d : Disk) (p : String) : Option String :=
  (d.files.find? (fun e => e.1 == p)).map (fun e => e.2)

/-- Replace the content stored for `p`, or create the entry. -/
def writeAssoc (l : List (String × String)) (p c : String) : List (String × String) :=
  if l.any (fun e => e.1 == p) then l.map (fun e => if e.1 == p then (p, c) else e)
  else l ++ [(p, c)]

def writeDiskFile (d : Disk) (p c : String) : Disk :=
  { d with files := writeAssoc d.files p c }

/-- Split of a character list at a separator character. -/
def splitCharsAux (sep : Char) : List Char → List Char → List String
  | [], acc => [String.mk acc.reverse]
  | c :: cs, acc =>
    if c == sep then String.mk acc.reverse :: splitCharsAux sep cs []
    else splitCharsAux sep cs (c :: acc)

/-- Split of a string at every occurrence of a separator character. -/
def splitOnSep (sep : Char) (s : String) : List String :=
  splitCharsAux sep s.toList []

/-- Join of path components with the path separator. -/
def joinSlash : List String → String
  | [] => ""
  | [x] => x
  | x :: xs => x ++ "/" ++ joinSlash xs

/-- Proper directory prefixes of a path: for `a/b/c.txt` these are `a` and
`a/b`, the chain `mkdirSync(dirname, { recursive: true })` creates. -/
def ancestorDirs (p : String) : List String :=
  let parts := (splitOnSep '/' p).dropLast
  (List.range parts.length).map (fun i => joinSlash (parts.take (i + 1)))

/-- Helper for file restoration (part_003 lines 15-23): create the missing
parent directories, then write the stored content to the path.  The stored
content is text (`content || ''` only replaces a null column by the empty
string). -/
def restoreFile (d : Disk) (p c : String) : Disk :=
  writeDiskFile { d with dirs := d.dirs ++ ancestorDirs p } p c

/-- The `files.forEach`/`selectedFiles.forEach` restoration loop shared by
`revertToSnapshot` and `selectiveRestore`. -/
def restoreAll (l : List (String × String)) (d : Disk) : Disk :=
  l.foldl (fun d pc => restoreFile d pc.1 pc.2) d

/-! ## Snapshot Engine: revert and selective restore (part_003) -/

/-- Rows the restore queries load: `SELECT f.path, sf.content FROM
snapshot_files sf INNER JOIN files f ON sf.file_id = f.id WHERE
sf.snapshot_id = ?`. -/
def snapshotFiles (db : DB) (sid : Nat) : List (String × String) :=
  db.snapshot_files.filterMap (fun sf =>
    if sf.snapshot_id == sid then
      (db.files.find? (fun f => f.id == sf.file_id)).map (fun f => (f.path, sf.content))
    else none)

/-- Revert to a snapshot (part_003 lines 69-95): load the snapshot's rows;
when none are found fail with `No files found in the selected snapshot.`
and touch nothing; otherwise restore every row in order.  The returned pair
is the resulting disk and the failure message, if any. -/
def revertToSnapshot (db : DB) (sid : Nat) (disk : Disk) : Disk × Option String :=
  let fl := snapshotFiles db sid
  if fl.isEmpty then (disk, some "No files found in the selected snapshot.")
  else (restoreAll fl disk, none)

/-- Validation attached to the selective-restore checkbox (part_003 lines
166-169): at least one file must be selected. -/
def validateFileSelection (input : List (String × String)) : Bool :=
  decide (input.length > 0)

/-- Write phase of `selectiveRestore` (part_003 lines 173-191): an empty
selection performs no writes and reports `No files selected for
restoration.`; otherwise exactly the selected rows are restored. -/
def selectiveRestoreFiles (selected : List (String × String)) (disk : Disk) :
    Disk × Option String :=
  if selected.isEmpty then (disk, some "No files selected for restoration.")
  else (restoreAll selected disk, none)

/-! ## Snapshot Engine: create and delete

Each sqlite statement of the callback chain is one numbered step; `fail`
says which steps error.  The source runs these steps without any
transaction, so the model applies each successful step's effect
immediately. -/

def nextSnapshotId (db : DB) : Nat :=
  db.snapshots.foldl (fun m s => max m s.id) 0 + 1

def nextSnapshotFileId (db : DB) : Nat :=
  db.snapshot_files.foldl (fun m s => max m s.id) 0 + 1

/-- Snapshot creation (snapshot.js lines 155-182).  Step 0 is `INSERT INTO
snapshots`; step 1 is the `SELECT id, path FROM files WHERE project_id = ?`;
step `2 + i` is the `INSERT INTO snapshot_files` for the i-th file row.
Each file's content is its current on-disk text, the empty string when the
file is missing (line 173).  A failing snapshot-file insert has no error
callback in the source, so the loop continues and no failure is recorded:
the run still ends with no reported error. -/
def createSnapshotRun (db : DB) (pid : Nat) (desc : String) (disk : Disk)
    (fail : Nat → Bool) : DB × Option String :=
  if fail 0 then (db, some "Error creating snapshot") else
  let sid := nextSnapshotId db
  let db1 : DB := { db with snapshots := db.snapshots ++ [⟨sid, pid, desc⟩] }
  if fail 1 then (db1, some "Error retrieving files") else
  let fl := db1.files.filter (fun f => f.project_id == pid)
  let db2 := fl.enum.foldl
    (fun d xf =>
      if fail (2 + xf.1) then d
      else { d with snapshot_files := d.snapshot_files ++
        [⟨nextSnapshotFileId d, sid, xf.2.id, (readDiskFile disk xf.2.path).getD ""⟩] })
    db1
  (db2, none)

/-- Snapshot deletion (snapshot.js lines 242-257, identically delete.js
lines 68-91).  Step 0 is `DELETE FROM snapshot_files WHERE snapshot_id = ?`;
step 1 is `DELETE FROM snapshots WHERE id = ?`. -/
def deleteSnapshotRun (db : DB) (sid : Nat) (fail : Nat → Bool) : DB × Option String :=
  if fail 0 then (db, some "Error deleting snapshot files") else
  let db1 : DB := { db with
    snapshot_files := db.snapshot_files.filter (fun sf => !(sf.snapshot_id == sid)) }
  if fail 1 then (db1, some "Error deleting snapshot") else
  ({ db1 with snapshots := db1.snapshots.filter (fun s => !(s.id == sid)) }, none)

/-- Snapshot lookup, as every command performs it. -/
def lookupSnapshot (db : DB) (sid : Nat) : Option SnapshotRow :=
  db.snapshots.find? (fun s => s.id == sid)

/-! ## Snapshot Engine: diff (diff.js) -/

/-- Validation attached to the two-snapshot checkbox (diff.js line 110):
`input.length === 2`. -/
def validateSnapshotSelection (input : List Nat) : Bool :=
  input.length == 2

/-- JavaScript object assignment `acc[path] = content`: an existing key is
overwritten in place, a new key is appended. -/
def assocInsert (m : List (String × String)) (k v : String) : List (String × String) :=
  if m.any (fun e => e.1 == k) then m.map (fun e => if e.1 == k then (k, v) else e)
  else m ++ [(k, v)]

/-- The `filesBySnapshot` reduce (diff.js lines 148-152) restricted to one
snapshot id: a path→content map built row by row, null content replaced by
the empty string at build time (modelled by the rows carrying text). -/
def buildSnapshotMap (rows : List (Nat × String × String)) (sid : Nat) :
    List (String × String) :=
  rows.foldl (fun m r => if r.1 == sid then assocInsert m r.2.1 r.2.2 else m) []

/-- `Object.keys({...files1, ...files2})` (diff.js line 158): the keys of
the first map in order, then the second map's keys that the first lacks. -/
def unionKeys (m1 m2 : List (String × String)) : List String :=
  m1.map Prod.fst ++ (m2.map Prod.fst).filter (fun k => !((m1.map Prod.fst).contains k))

/-- `filesN[path] || ''` (diff.js lines 160-161): the stored content, or the
empty string when the path is absent from that side. -/
def lookupOr (m : List (String × String)) (k : String) : String :=
  ((m.find? (fun e => e.1 == k)).map (fun e => e.2)).getD ""

/-- The per-path comparison records (diff.js lines 157-164): one
`(path, content1, content2)` triple per path in the union. -/
def diffEntries (m1 m2 : List (String × String)) : List (String × String × String) :=
  (unionKeys m1 m2).map (fun p => (p, lookupOr m1 p, lookupOr m2 p))

/-- One run of a line diff: a line kept unchanged, added, or removed. -/
inductive LineEdit where
  | keep (l : String) : LineEdit
  | add (l : String) : LineEdit
  | del (l : String) : LineEdit
deriving DecidableEq, Repr

def LineEdit.isAdd : LineEdit → Bool
  | .add _ => true
  | _ => false

def LineEdit.isDel : LineEdit → Bool
  | .del _ => true
  | _ => false

/-- The lines of a file's text; the empty text has no lines. -/
def toLines (s : String) : List String :=
  if s == "" then [] else splitOnSep '\x0a' s

/-- Modelled from the spec: the external `diffLines` library (the `diff`
npm package, not part of this repository) produces "a line-ordered sequence
of {unchanged | added | removed} runs comparing content A to content B";
here a minimal edit script in original line order, computed with a fuel
bound that the caller always sets high enough. -/
def lineDiffAux : Nat → List String → List String → List LineEdit
  | _, [], ys => ys.map .add
  | _, x :: xs, [] => (x :: xs).map .del
  | 0, _ :: _, _ :: _ => []
  | fuel + 1, x :: xs, y :: ys =>
    if x == y then .keep x :: lineDiffAux fuel xs ys
    else
      let d1 := .del x :: lineDiffAux fuel xs (y :: ys)
      let d2 := .add y :: lineDiffAux fuel (x :: xs) ys
      if d2.length < d1.length then d2 else d1

/-- Line diff of two contents, with sufficient fuel. -/
def lineDiff (xs ys : List String) : List LineEdit :=
  lineDiffAux (xs.length + ys.length) xs ys

/-- The diff pipeline after the two ids are chosen and no filter is given
(diff.js lines 134-174): build both maps from the fetched rows, form the
per-path comparison records over the union of paths, and render one line
diff per record. -/
def diffSnapshotsRun (rows : List (Nat × String × String)) (s1 s2 : Nat) :
    List (String × List LineEdit) :=
  let m1 := buildSnapshotMap rows s1
  let m2 := buildSnapshotMap rows s2
  (diffEntries m1 m2).map (fun e => (e.1, lineDiff (toLines e.2.1) (toLines e.2.2)))

/-- Snapshot choices offered by the diff prompt (diff.js lines 85-112): the
ids of the current project's snapshots. -/
def snapshotChoices (db : DB) (pid : Nat) : List Nat :=
  (db.snapshots.filter (fun s => s.project_id == pid)).map (fun s => s.id)

/-! ## Concrete fixtures used by witness and counterexample theorems -/

/-- Concrete stand-in for the content hash in witness runs. -/
def hashW : String → String := fun s => String.append "#" s

/-- Small project tree: two regular files and one ignored log file. -/
def rootW : FSList :=
  .cons (.file "a.txt" "1") (.cons (.dir "src" (.cons (.file "m.js" "code") .nil))
    (.cons (.file "x.log" "nope") .nil))

/-- Database with one snapshot holding two files, one in a subdirectory. -/
def dbW : DB :=
  ⟨[⟨1, 1, "a.txt", "h", 0⟩, ⟨2, 1, "d/b.txt", "h2", 0⟩],
   [⟨1, 1, "base"⟩],
   [⟨1, 1, 1, "CA"⟩, ⟨2, 1, 2, "CB"⟩]⟩

/-- Working directory holding one tracked file and one unrelated file. -/
def diskW : Disk := ⟨[("a.txt", "old"), ("z.txt", "zz")], []⟩

/-- Database with two tracked files and no snapshot yet. -/
def dbC1 : DB := ⟨[⟨1, 1, "a.txt", "h1", 0⟩, ⟨2, 1, "b.txt", "h2", 0⟩], [], []⟩

/-- Working directory contents for the two tracked files of `dbC1`. -/
def diskC1 : Disk := ⟨[("a.txt", "1"), ("b.txt", "2")], []⟩

/-- Database with two snapshots of two files each. -/
def dbC5 : DB :=
  ⟨[⟨1, 1, "a.txt", "h1", 0⟩, ⟨2, 1, "b.txt", "h2", 0⟩],
   [⟨1, 1, "first"⟩, ⟨2, 1, "second"⟩],
   [⟨1, 1, 1, "A1"⟩, ⟨2, 1, 2, "B1"⟩, ⟨3, 2, 1, "A2"⟩, ⟨4, 2, 2, "B2"⟩]⟩

/-! ## Lemmas about the disk model -/

theorem overwrite_find_self (p c : String) (l : List (String × String))
    (ha : l.any (fun e => e.1 == p) = true) :
    (l.map (fun e => if e.1 == p then (p, c) else e)).find? (fun e => e.1 == p)
      = some (p, c) := by
  induction l with
  | nil => cases ha
  | cons e es ih =>
    by_cases h : (e.1 == p) = true
    · rw [List.map_cons, if_pos h]
      exact @List.find?_cons_of_pos _ (fun e => e.1 == p) (p, c) _ (by simp)
    · have h' : (e.1 == p) = false := by simpa using h
      rw [List.any_cons, h', Bool.false_or] at ha
      rw [List.map_cons, if_neg (by simp [h']),
        @List.find?_cons_of_neg _ (fun e => e.1 == p) e _ (by simp [h'])]
      exact ih ha

theorem overwrite_find_other (p c q : String) (hq : q ≠ p) (l : List (String × String)) :
    (l.map (fun e => if e.1 == p then (p, c) else e)).find? (fun e => e.1 == q)
      = l.find? (fun e => e.1 == q) := by
  induction l with
  | nil => rfl
  | cons e es ih =>
    have hpq : ¬ (p = q) := fun hh => hq hh.symm
    by_cases h : (e.1 == p) = true
    · have hep : e.1 = p := by simpa using h
      rw [List.map_cons, if_pos h,
        @List.find?_cons_of_neg _ (fun e => e.1 == q) (p, c) _ (by simp [hpq]),
        @List.find?_cons_of_neg _ (fun e => e.1 == q) e _ (by simp [hep, hpq])]
      exact ih
    · have h' : (e.1 == p) = false := by simpa using h
      rw [List.map_cons, if_neg (by simp [h'])]
      by_cases hv : (e.1 == q) = true
      · rw [@List.find?_cons_of_pos _ (fun e => e.1 == q) e _ hv,
          @List.find?_cons_of_pos _ (fun e => e.1 == q) e _ hv]
      · rw [@List.find?_cons_of_neg _ (fun e => e.1 == q) e _ hv,
          @List.find?_cons_of_neg _ (fun e => e.1 == q) e _ hv]
        exact ih

theorem append_find_self (p c : String) (l : List (String × String))
    (ha : ∀ e ∈ l, (e.1 == p) = false) :
    (l ++ [(p, c)]).find? (fun e => e.1 == p) = some (p, c) := by
  induction l with
  | nil => simp [List.find?]
  | cons e es ih =>
    rw [List.cons_append,
      @List.find?_cons_of_neg _ (fun e => e.1 == p) e _ (by simp [ha e (by simp)])]
    exact ih (fun x hx => ha x (by simp [hx]))

theorem append_find_other (p c q : String) (hq : q ≠ p) (l : List (String × String)) :
    (l ++ [(p, c)]).find? (fun e => e.1 == q) = l.find? (fun e => e.1 == q) := by
  induction l with
  | nil => simp [List.find?, beq_eq_false_iff_ne.mpr (fun hh : p = q => hq hh.symm)]
  | cons e es ih =>
    by_cases hv : (e.1 == q) = true
    · rw [List.cons_append, @List.find?_cons_of_pos _ (fun e => e.1 == q) e _ hv,
        @List.find?_cons_of_pos _ (fun e => e.1 == q) e _ hv]
    · rw [List.cons_append, @List.find?_cons_of_neg _ (fun e => e.1 == q) e _ hv,
        @List.find?_cons_of_neg _ (fun e => e.1 == q) e _ hv]
      exact ih

theorem writeAssoc_find_self (l : List (String × String)) (p c : String) :
    (writeAssoc l p c).find? (fun e => e.1 == p) = some (p, c) := by
  rw [writeAssoc]
  by_cases ha : l.any (fun e => e.1 == p) = true
  · rw [if_pos ha]
    exact overwrite_find_self p c l ha
  · have ha' : ∀ e ∈ l, (e.1 == p) = false := by
      intro e he
      by_contra hcon
      exact ha (List.any_eq_true.mpr ⟨e, he, by simpa using hcon⟩)
    rw [if_neg (by simpa using ha)]
    exact append_find_self p c l ha'

theorem writeAssoc_find_other (l : List (String × String)) (p c q : String) (hq : q ≠ p) :
    (writeAssoc l p c).find? (fun e => e.1 == q) = l.find? (fun e => e.1 == q) := by
  rw [writeAssoc]
  by_cases ha : l.any (fun e => e.1 == p) = true
  · rw [if_pos ha]
    exact overwrite_find_other p c q hq l
  · rw [if_neg (by simpa using ha)]
    exact append_find_other p c q hq l

theorem restoreFile_read_self (d : Disk) (p c : String) :
    readDiskFile (restoreFile d p c) p = some c := by
  simp [restoreFile, writeDiskFile, readDiskFile, writeAssoc_find_self]

theorem restoreFile_read_other (d : Disk) (p c q : String) (hq : q ≠ p) :
    readDiskFile (restoreFile d p c) q = readDiskFile d q := by
  simp [restoreFile, writeDiskFile, readDiskFile, writeAssoc_find_other _ _ _ _ hq]

theorem restoreFile_dirs (d : Disk) (p c : String) :
    (restoreFile d p c).dirs = d.dirs ++ ancestorDirs p := by
  simp [restoreFile, writeDiskFile]

theorem restoreAll_cons (pc : String × String) (l : List (String × String)) (d : Disk) :
    restoreAll (pc :: l) d = restoreAll l (restoreFile d pc.1 pc.2) := rfl

theorem restoreAll_read_frame (l : List (String × String)) (d : Disk) (q : String)
    (hq : q ∉ l.map Prod.fst) :
    readDiskFile (restoreAll l d) q = readDiskFile d q := by
  induction l generalizing d with
  | nil => rfl
  | cons pc l ih =>
    simp only [List.map_cons, List.mem_cons, not_or] at hq
    rw [restoreAll_cons, ih _ hq.2, restoreFile_read_other _ _ _ _ hq.1]

theorem restoreAll_dirs_mono (l : List (String × String)) (d : Disk) (a : String)
    (ha : a ∈ d.dirs) : a ∈ (restoreAll l d).dirs := by
  induction l generalizing d with
  | nil => exact ha
  | cons pc l ih =>
    rw [restoreAll_cons]
    exact ih _ (by rw [restoreFile_dirs]; exact List.mem_append_left _ ha)

theorem restoreAll_read_mem (l : List (String × String)) (d : Disk) (p c : String)
    (hmem : (p, c) ∈ l) (hnd : (l.map Prod.fst).Nodup) :
    readDiskFile (restoreAll l d) p = some c := by
  induction l generalizing d with
  | nil => cases hmem
  | cons pc l ih =>
    rw [restoreAll_cons]
    simp only [List.map_cons, List.nodup_cons] at hnd
    rcases List.mem_cons.mp hmem with h | h
    · subst h
      rw [restoreAll_read_frame _ _ _ hnd.1, restoreFile_read_self]
    · exact ih _ h hnd.2

theorem restoreAll_dirs_created (l : List (String × String)) (d : Disk) (p c a : String)
    (hmem : (p, c) ∈ l) (ha : a ∈ ancestorDirs p) : a ∈ (restoreAll l d).dirs := by
  induction l generalizing d with
  | nil => cases hmem
  | cons pc l ih =>
    rw [restoreAll_cons]
    rcases List.mem_cons.mp hmem with h | h
    · subst h
      exact restoreAll_dirs_mono _ _ _ (by rw [restoreFile_dirs]; exact List.mem_append_right _ ha)
    · exact ih _ h

/-! ## Lemmas about the File Tracker -/

theorem filter_map_path (f : FileRow → FileRow) (p : String)
    (hpath : ∀ r, (f r).path = r.path) (hfix : ∀ r, r.path = p → f r = r)
    (db : List FileRow) :
    (db.map f).filter (fun r => r.path == p) = db.filter (fun r => r.path == p) := by
  induction db with
  | nil => rfl
  | cons r rs ih =>
    by_cases hr : r.path = p
    · rw [List.map_cons, hfix r hr, List.filter_cons, List.filter_cons, ih]
    · have h1 : (r.path == p) = false := beq_eq_false_iff_ne.mpr hr
      have h2 : ((f r).path == p) = false := beq_eq_false_iff_ne.mpr (by rw [hpath]; exact hr)
      rw [List.map_cons, List.filter_cons, List.filter_cons, h1, h2, ih]
      simp

theorem upsertFile_filter_ne (projId now : Nat) (q hv : String) (p : String) (hq : q ≠ p)
    (db : List FileRow) :
    (upsertFile projId now q hv db).filter (fun r => r.path == p)
      = db.filter (fun r => r.path == p) := by
  rw [upsertFile]
  by_cases ha : db.any (fun r => r.path == q) = true
  · rw [if_pos ha]
    refine filter_map_path _ p (fun r => ?_) (fun r hr => ?_) db
    · by_cases h : (r.path == q) = true <;> simp [h]
    · have : (r.path == q) = false := beq_eq_false_iff_ne.mpr (by rw [hr]; exact fun hh => hq hh.symm)
      simp [this]
  · rw [if_neg (by simpa using ha), List.filter_append]
    have : ((q : String) == p) = false := beq_eq_false_iff_ne.mpr hq
    simp [this]

theorem upsertFile_writes (projId now : Nat) (p hv : String) (db : List FileRow) :
    ((upsertFile projId now p hv db).filter (fun r => r.path == p)).any
      (fun r => r.hash == hv) = true := by
  rw [upsertFile]
  by_cases ha : db.any (fun r => r.path == p) = true
  · rw [if_pos ha]
    rcases List.any_eq_true.mp ha with ⟨r, hr, hrp⟩
    refine List.any_eq_true.mpr ⟨{ r with hash := hv, modified_at := now }, ?_, by simp⟩
    refine List.mem_filter.mpr ⟨?_, by simpa using hrp⟩
    exact List.mem_map.mpr ⟨r, hr, by simp [hrp]⟩
  · rw [if_neg (by simpa using ha)]
    refine List.any_eq_true.mpr
      ⟨{ id := nextFileId db, project_id := projId, path := p, hash := hv, modified_at := now },
        List.mem_filter.mpr ⟨List.mem_append_right _ (by simp), by simp⟩, by simp⟩

mutual

theorem collectEntry_not_ignored (rules : List String) :
    ∀ (pre : String) (e : FSEntry) (q c : String), (q, c) ∈ collectEntry rules pre e →
      matchesAnyIgnore rules q = false
  | pre, .file name content, q, c, h => by
    by_cases hm : matchesAnyIgnore rules (pre ++ name) = true
    · simp [collectEntry, hm] at h
    · simp only [collectEntry, hm] at h
      simp at h
      rcases h with ⟨h1, _⟩
      subst h1
      simpa using hm
  | pre, .dir name children, q, c, h => by
    by_cases hm : matchesAnyIgnore rules (pre ++ name) = true
    · simp [collectEntry, hm] at h
    · simp only [collectEntry, hm, if_false] at h
      exact collectChildren_not_ignored rules (pre ++ name ++ "/") children q c (by simpa using h)

theorem collectChildren_not_ignored (rules : List String) :
    ∀ (pre : String) (es : FSList) (q c : String), (q, c) ∈ collectChildren rules pre es →
      matchesAnyIgnore rules q = false
  | _, .nil, _, _, h => by cases h
  | pre, .cons e es, q, c, h => by
    rcases List.mem_append.mp (by simpa [collectChildren] using h) with h1 | h1
    · exact collectEntry_not_ignored rules pre e q c h1
    · exact collectChildren_not_ignored rules pre es q c h1

end

mutual

theorem traverseEntry_pres (hashF : String → String) (rules : List String) (projId now : Nat)
    (p : String) :
    ∀ (pre : String) (e : FSEntry) (db : List FileRow),
      p ∉ (collectEntry rules pre e).map Prod.fst →
      (traverseEntry hashF rules projId now pre db e).filter (fun r => r.path == p)
        = db.filter (fun r => r.path == p)
  | pre, .file name content, db, hp => by
    by_cases hm : matchesAnyIgnore rules (pre ++ name) = true
    · simp [traverseEntry, hm]
    · simp only [collectEntry, hm, if_false, List.map_cons, List.map_nil, List.mem_singleton] at hp
      simp only [traverseEntry, hm, if_false]
      exact upsertFile_filter_ne projId now (pre ++ name) (hashF content) p
        (fun hh => hp (by simp [hh])) db
  | pre, .dir name children, db, hp => by
    by_cases hm : matchesAnyIgnore rules (pre ++ name) = true
    · simp [traverseEntry, hm]
    · simp only [collectEntry, hm, if_false] at hp
      simp only [traverseEntry, hm, if_false]
      exact traverseChildren_pres hashF rules projId now p (pre ++ name ++ "/") children db
        (by simpa using hp)

theorem traverseChildren_pres (hashF : String → String) (rules : List String) (projId now : Nat)
    (p : String) :
    ∀ (pre : String) (es : FSList) (db : List FileRow),
      p ∉ (collectChildren rules pre es).map Prod.fst →
      (traverseChildren hashF rules projId now pre db es).filter (fun r => r.path == p)
        = db.filter (fun r => r.path == p)
  | _, .nil, db, _ => rfl
  | pre, .cons e es, db, hp => by
    simp only [collectChildren, List.map_append, List.mem_append, not_or] at hp
    have h1 := traverseEntry_pres hashF rules projId now p pre e db hp.1
    have h2 := traverseChildren_pres hashF rules projId now p pre es
      (traverseEntry hashF rules projId now pre db e) hp.2
    calc (traverseChildren hashF rules projId now pre db (.cons e es)).filter
          (fun r => r.path == p)
        = (traverseChildren hashF rules projId now pre
            (traverseEntry hashF rules projId now pre db e) es).filter
            (fun r => r.path == p) := rfl
      _ = _ := by rw [h2, h1]

end

mutual

theorem traverseEntry_tracks (hashF : String → String) (rules : List String) (projId now : Nat) :
    ∀ (pre : String) (e : FSEntry) (db : List FileRow) (p c : String),
      (p, c) ∈ collectEntry rules pre e →
      ((collectEntry rules pre e).map Prod.fst).Nodup →
      ((traverseEntry hashF rules projId now pre db e).filter (fun r => r.path == p)).any
        (fun r => r.hash == hashF c) = true
  | pre, .file name content, db, p, c, hmem, _ => by
    by_cases hm : matchesAnyIgnore rules (pre ++ name) = true
    · simp [collectEntry, hm] at hmem
    · simp only [collectEntry, hm, if_false] at hmem
      simp at hmem
      rcases hmem with ⟨h1, h2⟩
      subst h1; subst h2
      simp only [traverseEntry, hm, if_false]
      exact upsertFile_writes projId now (pre ++ name) (hashF c) db
  | pre, .dir name children, db, p, c, hmem, hnd => by
    by_cases hm : matchesAnyIgnore rules (pre ++ name) = true
    · simp [collectEntry, hm] at hmem
    · simp only [collectEntry, hm, if_false] at hmem hnd
      simp only [traverseEntry, hm, if_false]
      exact traverseChildren_tracks hashF rules projId now (pre ++ name ++ "/") children db p c
        (by simpa using hmem) (by simpa using hnd)

theorem traverseChildren_tracks (hashF : String → String) (rules : List String)
    (projId now : Nat) :
    ∀ (pre : String) (es : FSList) (db : List FileRow) (p c : String),
      (p, c) ∈ collectChildren rules pre es →
      ((collectChildren rules pre es).map Prod.fst).Nodup →
      ((traverseChildren hashF rules projId now pre db es).filter (fun r => r.path == p)).any
        (fun r => r.hash == hashF c) = true
  | _, .nil, _, _, _, hmem, _ => by cases hmem
  | pre, .cons e es, db, p, c, hmem, hnd => by
    simp only [collectChildren, List.map_append] at hnd
    rw [List.nodup_append] at hnd
    have hstep : traverseChildren hashF rules projId now pre db (.cons e es)
        = traverseChildren hashF rules projId now pre
            (traverseEntry hashF rules projId now pre db e) es := rfl
    rcases List.mem_append.mp (by simpa [collectChildren] using hmem) with h1 | h1
    · have hany := traverseEntry_tracks hashF rules projId now pre e db p c h1 hnd.1
      have hnotin : p ∉ (collectChildren rules pre es).map Prod.fst := by
        intro hin
        exact absurd hin (hnd.2.2 (List.mem_map.mpr ⟨(p, c), h1, rfl⟩))
      rw [hstep, traverseChildren_pres hashF rules projId now p pre es _ hnotin]
      exact hany
    · rw [hstep]
      exact traverseChildren_tracks hashF rules projId now pre es _ p c h1 hnd.2.1

end

/-! ## Lemmas about the ignore match -/

theorem globDotMatch_star_all (s : List Char) : globDotMatch ['*'] s = true := by
  simp only [globDotMatch, beq_self_eq_true, if_true]
  refine List.any_eq_true.mpr ⟨[], ?_, rfl⟩
  exact (List.mem_tails _ _).mpr List.nil_suffix

theorem globDotMatch_star_suffix :
    ∀ (d s : List Char), '*' ∉ d → globDotMatch (d ++ ['*']) (d ++ s) = true
  | [], s, _ => by simpa using globDotMatch_star_all s
  | c :: d, s, hd => by
    have hc : ¬ (c = '*') := fun h => hd (by simp [h])
    have hd' : '*' ∉ d := fun h => hd (List.mem_cons_of_mem _ h)
    simp [globDotMatch, hc, globDotMatch_star_suffix d s hd']

theorem globDotMatch_exact :
    ∀ (p s : List Char), '*' ∉ p → '.' ∉ p → (globDotMatch p s = true ↔ p = s)
  | [], s, _, _ => by cases s <;> simp [globDotMatch]
  | a :: p, s, h1, h2 => by
    have ha : ¬ (a = '*') := fun h => h1 (by simp [h])
    have hb : ¬ (a = '.') := fun h => h2 (by simp [h])
    have h1' : '*' ∉ p := fun h => h1 (List.mem_cons_of_mem _ h)
    have h2' : '.' ∉ p := fun h => h2 (List.mem_cons_of_mem _ h)
    cases s with
    | nil => simp [globDotMatch, ha]
    | cons c cs =>
      simp [globDotMatch, ha, hb, globDotMatch_exact p cs h1' h2']

/-! ## Lemmas about the diff -/

theorem lineDiffAux_nil_left (fuel : Nat) (ys : List String) :
    lineDiffAux fuel [] ys = ys.map .add := by
  cases fuel <;> rfl

theorem lineDiffAux_nil_right (fuel : Nat) : ∀ xs : List String,
    lineDiffAux fuel xs [] = xs.map .del
  | [] => by cases fuel <;> rfl
  | _ :: _ => by cases fuel <;> rfl

theorem lineDiff_nil_left (ys : List String) : lineDiff [] ys = ys.map .add :=
  lineDiffAux_nil_left _ ys

theorem lineDiff_nil_right (xs : List String) : lineDiff xs [] = xs.map .del :=
  lineDiffAux_nil_right _ xs

theorem lineDiffAux_keep_self : ∀ (xs : List String) (fuel : Nat), xs.length ≤ fuel →
    lineDiffAux fuel xs xs = xs.map .keep
  | [], fuel, _ => by cases fuel <;> rfl
  | x :: xs, 0, h => absurd h (by simp)
  | x :: xs, fuel + 1, h => by
    rw [lineDiffAux]
    simp [lineDiffAux_keep_self xs fuel (by simpa using h)]

theorem lineDiff_keep_self (xs : List String) : lineDiff xs xs = xs.map .keep :=
  lineDiffAux_keep_self xs _ (by simp)

theorem unionKeys_mem (m1 m2 : List (String × String)) (p : String) :
    p ∈ unionKeys m1 m2 ↔ p ∈ m1.map Prod.fst ∨ p ∈ m2.map Prod.fst := by
  simp only [unionKeys, List.mem_append, List.mem_filter, Bool.not_eq_true',
    List.contains_eq_any_beq]
  constructor
  · rintro (h | ⟨h, _⟩)
    · exact Or.inl h
    · exact Or.inr h
  · rintro (h | h)
    · exact Or.inl h
    · by_cases hp : p ∈ m1.map Prod.fst
      · exact Or.inl hp
      · refine Or.inr ⟨h, List.any_eq_false.mpr ?_⟩
        intro x hx
        simp only [beq_iff_eq]
        exact fun hh => hp (hh ▸ hx)

theorem lookupOr_not_mem (m : List (String × String)) (p : String)
    (hp : p ∉ m.map Prod.fst) : lookupOr m p = "" := by
  rw [lookupOr]
  have : m.find? (fun e => e.1 == p) = none := by
    refine List.find?_eq_none.mpr (fun x hx => ?_)
    simp only [beq_iff_eq, Bool.not_eq_true]
    by_contra hcon
    exact hp (List.mem_map.mpr ⟨x, hx, by simpa using hcon⟩)
  simp [this]

theorem toLines_empty : toLines "" = [] := rfl

/-! ## Claim theorems -/

/-- Claim C1: `createSnapshot` claims to insert the Snapshot row and one
SnapshotFile per tracked File as one atomic unit, with no partial state on
any failure.  The code runs the inserts as an unguarded callback chain
without a transaction: when the `snapshot_files` insert for the second of
two tracked files fails (step 3), the run keeps the Snapshot row with only
one of its two SnapshotFile rows and, because that insert has no error
callback, still reports no error. -/
theorem createSnapshot_partial_on_failure :
    (createSnapshotRun dbC1 1 "wip" diskC1 (fun n => n == 3)).2 = none ∧
    (createSnapshotRun dbC1 1 "wip" diskC1 (fun n => n == 3)).1.snapshots
      = [⟨1, 1, "wip"⟩] ∧
    ((createSnapshotRun dbC1 1 "wip" diskC1 (fun n => n == 3)).1.snapshot_files.filter
      (fun sf => sf.snapshot_id == 1)).length = 1 ∧
    (dbC1.files.filter (fun f => f.project_id == 1)).length = 2 := by
  refine ⟨by decide, by decide, by decide, by decide⟩

/-- Claim C2: after a successful `revertToSnapshot`, every path recorded in
the snapshot reads back exactly its stored content, with the missing parent
directories created, and every path absent from the snapshot is left
untouched. -/
theorem revert_restores_snapshot_content (db : DB) (sid : Nat) (disk d' : Disk)
    (hnd : ((snapshotFiles db sid).map Prod.fst).Nodup)
    (hrun : revertToSnapshot db sid disk = (d', none)) :
    (∀ p c, (p, c) ∈ snapshotFiles db sid →
      readDiskFile d' p = some c ∧ ∀ a ∈ ancestorDirs p, a ∈ d'.dirs) ∧
    (∀ q, q ∉ (snapshotFiles db sid).map Prod.fst →
      readDiskFile d' q = readDiskFile disk q) := by
  by_cases he : (snapshotFiles db sid).isEmpty = true
  · rw [revertToSnapshot] at hrun
    simp only [he, if_true] at hrun
    exact absurd (congrArg Prod.snd hrun) (by simp)
  · rw [revertToSnapshot] at hrun
    simp only [he, if_false] at hrun
    have hd : restoreAll (snapshotFiles db sid) disk = d' := congrArg Prod.fst hrun
    subst hd
    exact ⟨fun p c hmem => ⟨restoreAll_read_mem _ _ _ _ hmem hnd,
      fun a ha => restoreAll_dirs_created _ _ _ c a hmem ha⟩,
      fun q hq => restoreAll_read_frame _ _ _ hq⟩

/-- Witness for C2 at a concrete database and disk. -/
theorem revert_restores_snapshot_content_witness :
    readDiskFile (revertToSnapshot dbW 1 diskW).1 "a.txt" = some "CA" ∧
    readDiskFile (revertToSnapshot dbW 1 diskW).1 "d/b.txt" = some "CB" ∧
    "d" ∈ (revertToSnapshot dbW 1 diskW).1.dirs ∧
    readDiskFile (revertToSnapshot dbW 1 diskW).1 "z.txt" = readDiskFile diskW "z.txt" := by
  have h := revert_restores_snapshot_content dbW 1 diskW (revertToSnapshot dbW 1 diskW).1
    (by decide) (by decide)
  exact ⟨(h.1 "a.txt" "CA" (by decide)).1, (h.1 "d/b.txt" "CB" (by decide)).1,
    (h.1 "d/b.txt" "CB" (by decide)).2 "d" (by decide), h.2 "z.txt" (by decide)⟩

/-- Claim C3: after `track`, every non-ignored file visited by the
traversal has a File row at its relative path whose hash is the content
hash of its current on-disk bytes. -/
theorem track_records_current_hashes (hashF : String → String) (rules : List String)
    (projId now : Nat) (root : FSList) (db : List FileRow) (p c : String)
    (hnd : ((collectChildren rules "" root).map Prod.fst).Nodup)
    (hmem : (p, c) ∈ collectChildren rules "" root) :
    ((traverseChildren hashF rules projId now "" db root).filter
      (fun r => r.path == p)).any (fun r => r.hash == hashF c) = true :=
  traverseChildren_tracks hashF rules projId now "" root db p c hmem hnd

/-- Witness for C3: the nested `src/m.js` file gets a row with its hash. -/
theorem track_records_current_hashes_witness :
    ((traverseChildren hashW ["*.log"] 1 7 "" [] rootW).filter
      (fun r => r.path == "src/m.js")).any (fun r => r.hash == hashW "code") = true :=
  track_records_current_hashes hashW ["*.log"] 1 7 rootW [] "src/m.js" "code"
    (by decide) (by decide)

/-- Claim C4: a path that matches a loaded ignore rule never has a File row
created or updated by the traversal: the rows at that path after `track`
are exactly the rows that were there before. -/
theorem ignored_path_never_tracked (hashF : String → String) (rules : List String)
    (projId now : Nat) (root : FSList) (db : List FileRow) (p : String)
    (hm : matchesAnyIgnore rules p = true) :
    (traverseChildren hashF rules projId now "" db root).filter (fun r => r.path == p)
      = db.filter (fun r => r.path == p) := by
  refine traverseChildren_pres hashF rules projId now p "" root db ?_
  intro hin
  rcases List.mem_map.mp hin with ⟨⟨q, c⟩, hqc, hq⟩
  cases hq
  have hf := collectChildren_not_ignored rules "" root _ c hqc
  simp [hm] at hf

/-- Witness for C4: no row appears for the ignored `x.log`. -/
theorem ignored_path_never_tracked_witness :
    matchesAnyIgnore ["*.log"] "x.log" = true ∧
    (traverseChildren hashW ["*.log"] 1 7 "" [] rootW).filter (fun r => r.path == "x.log")
      = ([] : List FileRow).filter (fun r => r.path == "x.log") :=
  ⟨by decide, ignored_path_never_tracked hashW ["*.log"] 1 7 rootW [] "x.log" (by decide)⟩

/-- Claim C5: `deleteSnapshot` claims to remove the snapshot's SnapshotFile
rows and its Snapshot row as one atomic unit, leaving other snapshots
untouched.  When both deletes succeed the cascade and the frame property do
hold and a later lookup finds nothing; but the code runs the two `DELETE`
statements as an unguarded callback chain without a transaction, so when
the second delete fails (step 1) the orphaned Snapshot row survives with
zero SnapshotFile rows. -/
theorem deleteSnapshot_cascade_not_atomic :
    deleteSnapshotRun dbC5 1 (fun _ => false)
      = (⟨dbC5.files, [⟨2, 1, "second"⟩], [⟨3, 2, 1, "A2"⟩, ⟨4, 2, 2, "B2"⟩]⟩, none) ∧
    lookupSnapshot (deleteSnapshotRun dbC5 1 (fun _ => false)).1 1 = none ∧
    deleteSnapshotRun dbC5 1 (fun n => n == 1)
      = (⟨dbC5.files, dbC5.snapshots, [⟨3, 2, 1, "A2"⟩, ⟨4, 2, 2, "B2"⟩]⟩,
          some "Error deleting snapshot") ∧
    lookupSnapshot (deleteSnapshotRun dbC5 1 (fun n => n == 1)).1 1 = some ⟨1, 1, "first"⟩ ∧
    (deleteSnapshotRun dbC5 1 (fun n => n == 1)).1.snapshot_files.filter
      (fun sf => sf.snapshot_id == 1) = [] := by
  refine ⟨by decide, by decide, by decide, by decide, by decide⟩

/-- Claim C6, counterexample: a same-id pair passes the code's only
selection check, `input.length === 2`, and the diff over that pair produces
diff output rather than being rejected. -/
theorem same_id_diff_not_rejected :
    validateSnapshotSelection [1, 1] = true ∧
    diffSnapshotsRun [(1, "a.txt", "x")] 1 1 = [("a.txt", [LineEdit.keep "x"])] :=
  ⟨by decide, by decide⟩

/-- Claim C6, amended: the selection validation checks only the count —
exactly two chosen entries — so a lone id is rejected; the offered ids all
come from the current project's snapshot list; and a same-id comparison is
not rejected, every run of its output being an unchanged run. -/
theorem diff_validates_count_only :
    (∀ l : List Nat, validateSnapshotSelection l = true ↔ l.length = 2) ∧
    (∀ (db : DB) (pid sid : Nat), sid ∈ snapshotChoices db pid →
      ∃ row ∈ db.snapshots, row.id = sid ∧ row.project_id = pid) ∧
    (∀ (rows : List (Nat × String × String)) (a : Nat) (e : String × List LineEdit)
      (ed : LineEdit), e ∈ diffSnapshotsRun rows a a → ed ∈ e.2 →
      ed.isAdd = false ∧ ed.isDel = false) := by
  refine ⟨fun l => by simp [validateSnapshotSelection], fun db pid sid hs => ?_, ?_⟩
  · rcases List.mem_map.mp hs with ⟨row, hrow, hid⟩
    rcases List.mem_filter.mp hrow with ⟨hmem, hpid⟩
    exact ⟨row, hmem, hid, by simpa using hpid⟩
  · intro rows a e ed he hed
    simp only [diffSnapshotsRun] at he
    rcases List.mem_map.mp he with ⟨tr, htr, rfl⟩
    rcases List.mem_map.mp htr with ⟨p, _, rfl⟩
    rw [lineDiff_keep_self] at hed
    rcases List.mem_map.mp hed with ⟨y, _, rfl⟩
    exact ⟨rfl, rfl⟩

/-- Witness for the amended C6 at concrete selections and rows. -/
theorem diff_validates_count_only_witness :
    validateSnapshotSelection [3, 4] = true ∧
    (∃ row ∈ dbW.snapshots, row.id = 1 ∧ row.project_id = 1) ∧
    ((LineEdit.keep "x").isAdd = false ∧ (LineEdit.keep "x").isDel = false) := by
  have h := diff_validates_count_only
  refine ⟨(h.1 [3, 4]).mpr rfl, h.2.1 dbW 1 1 (by decide), ?_⟩
  exact h.2.2 [(1, "a.txt", "x")] 1 ("a.txt", [LineEdit.keep "x"]) (LineEdit.keep "x")
    (by decide) (by decide)

/-- Claim C7: the empty selective-restore selection performs zero writes
and reports a failure instead of silently succeeding (the checkbox
validation also rejects it), and a non-empty selection writes only the
selected paths: any other path reads back unchanged. -/
theorem selectiveRestore_empty_rejected (sel : List (String × String)) (disk : Disk) :
    (selectiveRestoreFiles [] disk = (disk, some "No files selected for restoration.") ∧
      validateFileSelection [] = false) ∧
    (∀ q, q ∉ sel.map Prod.fst →
      readDiskFile (selectiveRestoreFiles sel disk).1 q = readDiskFile disk q) := by
  refine ⟨⟨rfl, rfl⟩, fun q hq => ?_⟩
  by_cases hs : sel.isEmpty = true
  · rw [selectiveRestoreFiles]
    simp [hs]
  · rw [selectiveRestoreFiles]
    simp only [hs, if_false]
    exact restoreAll_read_frame _ _ _ hq

/-- Witness for C7 at a concrete selection and disk. -/
theorem selectiveRestore_empty_rejected_witness :
    selectiveRestoreFiles [] diskW = (diskW, some "No files selected for restoration.") ∧
    readDiskFile (selectiveRestoreFiles [("a.txt", "CA")] diskW).1 "z.txt"
      = readDiskFile diskW "z.txt" := by
  have h := selectiveRestore_empty_rejected [("a.txt", "CA")] diskW
  exact ⟨h.1.1, h.2 "z.txt" (by decide)⟩

/-- Claim C8: the tracker's ignore match is anchored over the full relative
path with `*` matching any (possibly empty) character sequence; a matching
directory is not descended into, so its whole subtree is excluded, and a
matching file is skipped with the File rows untouched. -/
theorem ignore_match_subtree_exclusion (hashF : String → String) (rules : List String)
    (projId now : Nat) (pre name content : String) (children : FSList)
    (db : List FileRow) (hdir : matchesAnyIgnore rules (pre ++ name) = true) :
    traverseEntry hashF rules projId now pre db (.dir name children) = db ∧
    traverseEntry hashF rules projId now pre db (.file name content) = db ∧
    (∀ d s : List Char, '*' ∉ d → globDotMatch (d ++ ['*']) (d ++ s) = true) ∧
    (∀ p s : String, '*' ∉ p.toList → '.' ∉ p.toList →
      (globDotMatch p.toList s.toList = true ↔ p = s)) := by
  refine ⟨by simp [traverseEntry, hdir], by simp [traverseEntry, hdir],
    globDotMatch_star_suffix, fun p s h1 h2 => ?_⟩
  rw [globDotMatch_exact p.toList s.toList h1 h2]
  exact ⟨fun h => String.ext h, fun h => by rw [h]⟩

/-- Witness for C8: a matched directory is skipped whole, and the
directory-prefix rule matches every path beneath it. -/
theorem ignore_match_subtree_exclusion_witness :
    matchesAnyIgnore ["build*"] "build" = true ∧
    traverseEntry hashW ["build*"] 1 7 "" []
      (.dir "build" (.cons (.file "t.txt" "x") .nil)) = [] ∧
    globDotMatch ("build".toList ++ ['*']) ("build".toList ++ "/x/y.txt".toList) = true := by
  have h := ignore_match_subtree_exclusion hashW ["build*"] 1 7 "" "build" "c"
    (.cons (.file "t.txt" "x") .nil) [] (by decide)
  exact ⟨by decide, h.1, h.2.2.1 "build".toList "/x/y.txt".toList (by decide)⟩

/-- Claim C9: the diff compares over the union of the two snapshots'
path-to-content maps; a path present on only one side gets empty-string
content on the other, and its line diff is then pure deletion (right side
missing) or pure addition (left side missing). -/
theorem diff_union_empty_side (m1 m2 : List (String × String)) (p : String) :
    (p ∈ unionKeys m1 m2 ↔ p ∈ m1.map Prod.fst ∨ p ∈ m2.map Prod.fst) ∧
    (p ∈ unionKeys m1 m2 → (p, lookupOr m1 p, lookupOr m2 p) ∈ diffEntries m1 m2) ∧
    (p ∉ m2.map Prod.fst → lookupOr m2 p = "" ∧
      (lineDiff (toLines (lookupOr m1 p)) (toLines (lookupOr m2 p))).all
        LineEdit.isDel = true) ∧
    (p ∉ m1.map Prod.fst → lookupOr m1 p = "" ∧
      (lineDiff (toLines (lookupOr m1 p)) (toLines (lookupOr m2 p))).all
        LineEdit.isAdd = true) := by
  refine ⟨unionKeys_mem m1 m2 p, fun hp => List.mem_map_of_mem _ hp, fun h2 => ?_,
    fun h1 => ?_⟩
  · have hl := lookupOr_not_mem m2 p h2
    refine ⟨hl, ?_⟩
    rw [hl, toLines_empty, lineDiff_nil_right]
    refine List.all_eq_true.mpr (fun x hx => ?_)
    rcases List.mem_map.mp hx with ⟨y, _, rfl⟩
    rfl
  · have hl := lookupOr_not_mem m1 p h1
    refine ⟨hl, ?_⟩
    rw [hl, toLines_empty, lineDiff_nil_left]
    refine List.all_eq_true.mpr (fun x hx => ?_)
    rcases List.mem_map.mp hx with ⟨y, _, rfl⟩
    rfl

/-- Witness for C9: a path present only in the first snapshot yields a
pure-deletion entry. -/
theorem diff_union_empty_side_witness :
    ("a.txt", "1", "") ∈ diffEntries [("a.txt", "1")] ([] : List (String × String)) ∧
    (lineDiff (toLines "1") (toLines "")).all LineEdit.isDel = true := by
  have h := diff_union_empty_side [("a.txt", "1")] ([] : List (String × String)) "a.txt"
  exact ⟨h.2.1 (by decide), (h.2.2.1 (by decide)).2⟩

/-- Claim C10: reverting a snapshot whose SnapshotFile set is empty
performs zero file writes and fails with the `no files found` report
instead of succeeding as an empty restore. -/
theorem revert_empty_snapshot_fails (db : DB) (sid : Nat) (disk : Disk)
    (h : snapshotFiles db sid = []) :
    revertToSnapshot db sid disk
      = (disk, some "No files found in the selected snapshot.") := by
  rw [revertToSnapshot]
  simp [h]

/-- Witness for C10: a snapshot id with no rows leaves the disk as is. -/
theorem revert_empty_snapshot_fails_witness :
    revertToSnapshot dbW 99 diskW
      = (diskW, some "No files found in the selected snapshot.") :=
  revert_empty_snapshot_fails dbW 99 diskW (by decide)

end SVC
